import Mathlib

/-!
Verification development for the social-media viewer's extraction pipeline.

The JavaScript sources are shallowly embedded as executable Lean functions:
  * `detectPlatform` — `detectPlatform` in the express server, built on
    `isTwitterUrl` (lib/twitter) and `isInstagramUrl` (lib/instagram), which
    run unanchored case-insensitive regex searches over the URL string.
  * `selectVideoUrl` — the format-selection logic of `parseYtdlpInfo`
    (lib/ytdlp), including the stable sort by height performed by
    `Array.prototype.sort` with comparator `(b.height||0)-(a.height||0)`.
  * `handleExtract` — the `POST /api/extract` handler: body check, URL
    parse, platform detection, yt-dlp attempt (modelled as an oracle value
    of type `Except String ContentRecord`), embed fallback via
    `getEmbedUrl`.  The model additionally records which extraction tiers
    were invoked.
  * `twitterReconcile` / `instaReconcile` — the post-DOM reconciliation of
    captured network URLs in the two Puppeteer extractors.
  * `twitterCapture` / `instaCapture` — the network listeners that build
    the per-attempt captured-evidence lists.

JavaScript semantics is modelled precisely where it matters: regex search
is existence of a match at some position of the (lowercased, for the `i`
flag) character sequence; `String.prototype.includes` is substring
occurrence; truthiness of a possibly-missing number is `getD 0 ≠ 0` and of
a possibly-missing string is "present and non-empty"; `Array.prototype.sort`
is a stable sort.
-/

namespace SMViewer

/-! ## Character-list utilities (JS string primitives) -/

/-- Strip a literal pattern from the front of a string; `some rest` on success.
This is the building block for modelling regex literals. -/
def stripL : List Char → List Char → Option (List Char)
  | [], s => some s
  | _, [] => none
  | c :: p, d :: s => if c = d then stripL p s else none

/-- JS `String.prototype.includes`: the pattern occurs (contiguously) somewhere. -/
def includesL : List Char → List Char → Bool
  | [], pat => (stripL pat []).isSome
  | c :: t, pat => (stripL pat (c :: t)).isSome || includesL t pat

/-- `includes` on Lean strings (JS `s.includes(pat)`). -/
def includes (s pat : String) : Bool := includesL s.toList pat.toList

/-- Drop the maximal leading run of characters satisfying `p`. -/
def dropRun (p : Char → Bool) : List Char → List Char
  | [] => []
  | c :: t => if p c then dropRun p t else c :: t

/-- Take the maximal leading run of characters satisfying `p`. -/
def takeRun (p : Char → Bool) : List Char → List Char
  | [] => []
  | c :: t => if p c then c :: takeRun p t else []

/-- Regex `\w`: `[A-Za-z0-9_]`. -/
def wordChar (c : Char) : Bool := c.isAlphanum || c = '_'

/-- Regex class `[A-Za-z0-9_-]` used for Instagram shortcodes. -/
def shortChar (c : Char) : Bool := c.isAlphanum || c = '_' || c = '-'

/-- The string starts with a decimal digit (regex `\d`, one needed for `\d+`). -/
def digitStart : List Char → Bool
  | [] => false
  | c :: _ => c.isDigit

/-- The string starts with a shortcode character (one needed for `[A-Za-z0-9_-]+`). -/
def shortStart : List Char → Bool
  | [] => false
  | c :: _ => shortChar c

/-- Run a position matcher at every position of the string (unanchored regex search). -/
def scanPos (p : List Char → Bool) : List Char → Bool
  | [] => p []
  | c :: t => p (c :: t) || scanPos p t

/-! ## Platform detection (lib/twitter, lib/instagram, server `detectPlatform`) -/

/-- Tail of the Twitter patterns after `status`: `(?:es)?\/(\d+)`. -/
def afterStatus (r : List Char) : Bool :=
  (match stripL "es/".toList r with
   | some r3 => digitStart r3
   | none => false) ||
  (match stripL "/".toList r with
   | some r3 => digitStart r3
   | none => false)

/-- Twitter pattern tail `(\w+)\/status(?:es)?\/(\d+)`.  `\w+` is forced
maximal because the following regex character is `/`, which is not a `\w`. -/
def twitterCore (r : List Char) : Bool :=
  match r with
  | [] => false
  | c :: _ =>
    wordChar c &&
    (match stripL "/status".toList (dropRun wordChar r) with
     | some r2 => afterStatus r2
     | none => false)

/-- Twitter pattern tail including the optional `(?:#!\/)?` group.  If the
string starts with `#!/` the group must consume it, because `#` is not a
`\w` character. -/
def twitterTail (r : List Char) : Bool :=
  twitterCore (match stripL "#!/".toList r with
               | some r2 => r2
               | none => r)

/-- First regex of `TWITTER_URL_PATTERNS` at one position:
`(?:twitter\.com|x\.com)\/(?:#!\/)?(\w+)\/status(?:es)?\/(\d+)`. -/
def matchTwitterAt (s : List Char) : Bool :=
  (match stripL "twitter.com/".toList s with
   | some r => twitterTail r
   | none => false) ||
  (match stripL "x.com/".toList s with
   | some r => twitterTail r
   | none => false)

/-- Second regex of `TWITTER_URL_PATTERNS` at one position:
`(?:mobile\.twitter\.com|mobile\.x\.com)\/(\w+)\/status(?:es)?\/(\d+)`. -/
def matchTwitterMobileAt (s : List Char) : Bool :=
  (match stripL "mobile.twitter.com/".toList s with
   | some r => twitterCore r
   | none => false) ||
  (match stripL "mobile.x.com/".toList s with
   | some r => twitterCore r
   | none => false)

/-- `isTwitterUrl` on the character sequence: both patterns carry the `i`
flag, so the subject is lowercased (the pattern literals are lowercase and
the classes `\w`, `\d` are case-closed). -/
def isTwitterUrlL (s : List Char) : Bool :=
  scanPos matchTwitterAt (s.map Char.toLower) ||
    scanPos matchTwitterMobileAt (s.map Char.toLower)

/-- `isTwitterUrl(url)` from lib/twitter: some pattern of
`TWITTER_URL_PATTERNS` matches somewhere in the URL. -/
def isTwitterUrl (url : String) : Bool := isTwitterUrlL url.toList

/-- One Instagram alternative at one position: literal prefix (after the
domain) followed by at least one shortcode character. -/
def instaAltAt (pre : String) (s : List Char) : Bool :=
  match stripL pre.toList s with
  | some r => shortStart r
  | none => false

/-- The five `INSTAGRAM_URL_PATTERNS` after the optional `www.`:
`instagram.com/{p,reel,reels,tv}/…` and `instagr.am/p/…`. -/
def instaPost (r : List Char) : Bool :=
  instaAltAt "instagram.com/p/" r ||
  instaAltAt "instagram.com/reel/" r ||
  instaAltAt "instagram.com/reels/" r ||
  instaAltAt "instagram.com/tv/" r ||
  instaAltAt "instagr.am/p/" r

/-- Any Instagram pattern at one position, with the optional `(?:www\.)?`. -/
def matchInstaAt (s : List Char) : Bool :=
  (match stripL "www.".toList s with
   | some r => instaPost r
   | none => false) ||
  instaPost s

/-- `isInstagramUrl` on the character sequence (patterns carry the `i` flag). -/
def isInstagramUrlL (s : List Char) : Bool :=
  scanPos matchInstaAt (s.map Char.toLower)

/-- `isInstagramUrl(url)` from lib/instagram. -/
def isInstagramUrl (url : String) : Bool := isInstagramUrlL url.toList

/-- `detectPlatform` from the server, on the character sequence.  The
TikTok test is JS `url.includes('tiktok.com')` (case-sensitive). -/
def detectPlatformL (s : List Char) : Option String :=
  if isTwitterUrlL s then some "twitter"
  else if isInstagramUrlL s then some "instagram"
  else if includesL s "tiktok.com".toList then some "tiktok"
  else none

/-- `detectPlatform(url)` from the server: `'twitter'`, `'instagram'`,
`'tiktok'` or `null`. -/
def detectPlatform (url : String) : Option String := detectPlatformL url.toList

/-! ## Data model (normalized content record, as far as the server inspects it) -/

/-- One media entry: `type ∈ {video, image, gif}`, `url` (may be empty for a
placeholder), optional `thumbnail`. -/
structure MediaItem where
  type : String
  url : String
  thumbnail : Option String := none
deriving DecidableEq

/-- `content` part of the record: text plus ordered media list. -/
structure Content where
  text : String
  media : List MediaItem
deriving DecidableEq

/-- The normalized record produced by the yt-dlp tier.  Only the fields the
`POST /api/extract` handler inspects (`content.media`) or forwards are
modelled; author, stats and timestamp are passed through untouched by the
handler and do not affect control flow. -/
structure ContentRecord where
  platform : String
  content : Content
  originalUrl : String
deriving DecidableEq

/-- The embed-fallback response body:
`{ platform, embedMode: true, originalUrl, embedUrl }`. -/
structure EmbedRecord where
  platform : String
  embedMode : Bool
  originalUrl : String
  embedUrl : String
deriving DecidableEq

/-- Body of a JSON error response (`error` kind plus human message). -/
structure ErrorBody where
  error : String
  message : String
deriving DecidableEq

/-- Responses the `POST /api/extract` handler can produce. -/
inductive ApiResponse where
  | err (status : Nat) (body : ErrorBody)
  | ok (r : ContentRecord)
  | okEmbed (e : EmbedRecord)
deriving DecidableEq

/-- Handler outcome together with which extraction tiers were invoked.
The handler's code contains no call to the Puppeteer extractors
(`extractTwitterContent` / `extractInstagramContent` are exported by the
lib modules but never imported by the server), so `secondaryInvoked` is
`false` on every path of the model. -/
structure HandlerResult where
  response : ApiResponse
  primaryInvoked : Bool
  secondaryInvoked : Bool
deriving DecidableEq

/-! ## Embed fallback builder (`getEmbedUrl` in the server) -/

/-- JS `String.prototype.replace` with a string pattern: replace the first
occurrence only; the string is unchanged when the pattern does not occur. -/
def replaceFirstL (pat rep : List Char) : List Char → List Char
  | [] => match stripL pat [] with
          | some _ => rep
          | none => []
  | c :: t => match stripL pat (c :: t) with
              | some rest => rep ++ rest
              | none => c :: replaceFirstL pat rep t

/-- One alternative of the server's shortcode regex at one position:
literal `alt ++ "/"` then the captured `[A-Za-z0-9_-]+` (maximal run). -/
def shortcodeAltAt (alt : String) (s : List Char) : Option (List Char) :=
  match stripL (alt ++ "/").toList s with
  | some r => if shortStart r then some (takeRun shortChar r) else none
  | none => none

/-- The server's `url.match(/(?:p|reel|reels|tv)\/([A-Za-z0-9_-]+)/)` at one
position: alternatives tried in regex order. -/
def shortcodeAt (s : List Char) : Option (List Char) :=
  match shortcodeAltAt "p" s with
  | some c => some c
  | none =>
    match shortcodeAltAt "reel" s with
    | some c => some c
    | none =>
      match shortcodeAltAt "reels" s with
      | some c => some c
      | none => shortcodeAltAt "tv" s

/-- Leftmost match of the shortcode regex (this regex has no `i` flag, so no
lowercasing), returning the first capture group. -/
def scanShortcode : List Char → Option (List Char)
  | [] => shortcodeAt []
  | c :: t => match shortcodeAt (c :: t) with
              | some cap => some cap
              | none => scanShortcode t

/-- `getEmbedUrl(platform, url)` from the server. -/
def getEmbedUrl (platform url : String) : String :=
  if platform = "twitter" then
    String.mk (replaceFirstL "x.com".toList "twitter.com".toList url.toList)
  else if platform = "instagram" then
    match scanShortcode url.toList with
    | some sc => String.mk ("https://www.instagram.com/p/".toList ++ sc ++ "/embed/".toList)
    | none => url
  else if platform = "tiktok" then url
  else url

/-! ## `POST /api/extract` handler -/

/-- `media.some(m => m.type === 'video' && m.url)` — truthy `url` means
non-empty. -/
def hasUsableVideo (r : ContentRecord) : Bool :=
  r.content.media.any (fun m => m.type == "video" && m.url != "")

/-- The yt-dlp attempt is treated as unusable by the handler when it threw
(`error`) or when its record has no media or no video item with a non-empty
URL. -/
def primaryUnusable : Except String ContentRecord → Prop
  | .error _ => True
  | .ok r => ¬ (0 < r.content.media.length ∧ hasUsableVideo r = true)

instance (x : Except String ContentRecord) : Decidable (primaryUnusable x) := by
  cases x with
  | error e => exact isTrue trivial
  | ok r => exact inferInstanceAs (Decidable (¬ _))

/-- The `POST /api/extract` handler.  `body` is the request's `url` field
(`none` when absent); `parseOk` abstracts Node's `new URL` constructor (an
external collaborator: `true` = parses, `false` = throws); `primary` is the
outcome of the single `extractWithYtdlp` call (it spawns an external
process, so it enters the model as an oracle value).  Paths that never
reach the yt-dlp call report `primaryInvoked = false`. -/
def handleExtract (body : Option String) (parseOk : String → Bool)
    (primary : Except String ContentRecord) : HandlerResult :=
  match body with
  | none =>
    ⟨.err 400 ⟨"URL is required", "Please provide a social media URL to view"⟩, false, false⟩
  | some url =>
    if url = "" then
      ⟨.err 400 ⟨"URL is required", "Please provide a social media URL to view"⟩, false, false⟩
    else if parseOk url = false then
      ⟨.err 400 ⟨"Invalid URL", "The provided URL is not valid"⟩, false, false⟩
    else
      match detectPlatform url with
      | none =>
        ⟨.err 400 ⟨"Unsupported platform",
          "Currently only Twitter/X, Instagram, and TikTok links are supported"⟩, false, false⟩
      | some platform =>
        match primary with
        | .ok result =>
          if 0 < result.content.media.length ∧ hasUsableVideo result = true then
            ⟨.ok result, true, false⟩
          else
            ⟨.okEmbed ⟨platform, true, url, getEmbedUrl platform url⟩, true, false⟩
        | .error _ =>
          ⟨.okEmbed ⟨platform, true, url, getEmbedUrl platform url⟩, true, false⟩

/-! ## yt-dlp format selection (`parseYtdlpInfo` in lib/ytdlp) -/

/-- One entry of yt-dlp's `formats` array; every field the selection logic
reads, each possibly absent. -/
structure YtFormat where
  width : Option Nat := none
  height : Option Nat := none
  url : Option String := none
  vcodec : Option String := none
  video_ext : Option String := none
  ext : Option String := none
  format_id : Option String := none
deriving DecidableEq

/-- JS truthiness of a possibly-missing number (`undefined` and `0` falsy). -/
def truthyNat (o : Option Nat) : Bool := o.getD 0 != 0

/-- JS truthiness of a possibly-missing string (`undefined` and `''` falsy). -/
def truthyStr (o : Option String) : Bool :=
  match o with
  | none => false
  | some s => s != ""

/-- The filter `f.width && f.height && f.url && f.vcodec !== 'none' &&
f.video_ext !== 'none'` selecting formats that really carry video. -/
def isVideoFormat (f : YtFormat) : Bool :=
  truthyNat f.width && truthyNat f.height && truthyStr f.url &&
    f.vcodec != some "none" && f.video_ext != some "none"

/-- The progressive filter `!f.format_id?.includes('dash') &&
(f.ext === 'mp4' || f.video_ext === 'mp4')` (optional chaining: a missing
`format_id` does not contain `'dash'`). -/
def isProgressive (f : YtFormat) : Bool :=
  !(match f.format_id with
    | some id => includes id "dash"
    | none => false) &&
  (f.ext == some "mp4" || f.video_ext == some "mp4")

/-- Sort key: `f.height || 0`. -/
def hOf (f : YtFormat) : Nat := f.height.getD 0

/-- Stable insertion (descending by `hOf`): the new element goes after every
already-placed element of greater *or equal* height, exactly the order a
stable sort with comparator `(b.height||0)-(a.height||0)` produces. -/
def insertByHeight (f : YtFormat) : List YtFormat → List YtFormat
  | [] => [f]
  | g :: t => if hOf g ≤ hOf f then f :: g :: t else g :: insertByHeight f t

/-- Stable sort, descending by height, modelling
`candidates.sort((a, b) => (b.height || 0) - (a.height || 0))`
(`Array.prototype.sort` is stable). -/
def sortByHeightDesc : List YtFormat → List YtFormat
  | [] => []
  | f :: t => insertByHeight f (sortByHeightDesc t)

/-- `const candidates = progressiveFormats.length > 0 ? progressiveFormats
: videoFormats` where `progressiveFormats = videoFormats.filter(isProgressive)`
and `videoFormats = formats.filter(isVideoFormat)`. -/
def candidatesOf (formats : List YtFormat) : List YtFormat :=
  if 0 < ((formats.filter isVideoFormat).filter isProgressive).length then
    (formats.filter isVideoFormat).filter isProgressive
  else formats.filter isVideoFormat

/-- The `videoUrl` computed from `info.formats` / `info.url` by
`parseYtdlpInfo` (lines 38–67): filter video formats, prefer progressive
ones, stable-sort by height, take the first (`candidates[0].url`);
otherwise fall back to yt-dlp's own top-level `url` (`info.url || ''`,
and the initial `let videoUrl = ''`). -/
def selectVideoUrl (formats : List YtFormat) (topUrl : Option String) : String :=
  if 0 < formats.length then
    if 0 < (formats.filter isVideoFormat).length then
      match sortByHeightDesc (candidatesOf formats) with
      | best :: _ => best.url.getD ""
      | [] => ""
    else topUrl.getD ""
  else topUrl.getD ""

/-- The spec's example entry `{height:720, url:"a", video_ext:"mp4",
format_id:"137"}`, exactly as written (no `width`). -/
def specFormatA : YtFormat :=
  { height := some 720, url := some "a", video_ext := some "mp4", format_id := some "137" }

/-- The spec's example entry `{height:1080, url:"b", video_ext:"mp4",
format_id:"137-dash"}`, exactly as written (no `width`). -/
def specFormatB : YtFormat :=
  { height := some 1080, url := some "b", video_ext := some "mp4",
    format_id := some "137-dash" }

/-- `specFormatA` completed with an explicit `width`, as yt-dlp emits it. -/
def wideFormatA : YtFormat := { specFormatA with width := some 1280 }

/-- `specFormatB` completed with an explicit `width`. -/
def wideFormatB : YtFormat := { specFormatB with width := some 1920 }

/-- A complete progressive 720p format with url `"ua"`. -/
def eqHeightA : YtFormat :=
  { width := some 1280, height := some 720, url := some "ua", vcodec := some "avc1",
    video_ext := some "mp4", ext := some "mp4", format_id := some "f1" }

/-- A second complete progressive 720p format, distinguished only by url
`"ub"` and format id. -/
def eqHeightB : YtFormat :=
  { width := some 1280, height := some 720, url := some "ub", vcodec := some "avc1",
    video_ext := some "mp4", ext := some "mp4", format_id := some "f2" }

/-- A complete progressive 1080p format with url `"ua"`. -/
def tallFormat : YtFormat := { eqHeightA with height := some 1080 }

/-- A complete progressive 480p format with url `"ub"`. -/
def shortFormat : YtFormat := { eqHeightB with height := some 480 }

/-! ## Captured network evidence (the Puppeteer listeners) -/

/-- The Twitter extractor's request listener: push each request URL that
contains `.mp4` or `video.twimg.com`, in observation order, with **no**
duplicate check. -/
def twitterCapture : List String → List String
  | [] => []
  | u :: t =>
    if includes u ".mp4" || includes u "video.twimg.com" then u :: twitterCapture t
    else twitterCapture t

/-- A network event observed by the Instagram extractor: a response (URL
plus `content-type` header, defaulted to `''`) or an intercepted request. -/
inductive NetEvent where
  | response (url contentType : String)
  | request (url : String)
deriving DecidableEq

/-- URL of a network event. -/
def NetEvent.url : NetEvent → String
  | .response u _ => u
  | .request u => u

/-- Video condition of the Instagram listeners: for responses
`contentType.includes('video') || url.includes('.mp4') ||
(url.includes('scontent') && url.includes('video'))`; for intercepted
requests the same without the content-type clause. -/
def eventVideoCond : NetEvent → Bool
  | .response u ct =>
    includes ct "video" || includes u ".mp4" || (includes u "scontent" && includes u "video")
  | .request u => includes u ".mp4" || (includes u "scontent" && includes u "video")

/-- Image condition of the Instagram response listener (requests never push
images). -/
def eventImageCond : NetEvent → Bool
  | .response u ct =>
    (includes ct "image" || includes u ".jpg" || includes u ".webp") &&
    (includes u "cdninstagram.com" || includes u "fbcdn.net") &&
    !(includes u "150x150") && !(includes u "profile")
  | .request _ => false

/-- `if (!list.includes(url)) list.push(url)` — append preserving first
occurrence. -/
def pushUnique (l : List String) (u : String) : List String :=
  if u ∈ l then l else l ++ [u]

/-- One Instagram listener invocation updating the `(capturedVideos,
capturedImages)` pair. -/
def instaStep (acc : List String × List String) (e : NetEvent) :
    List String × List String :=
  (if eventVideoCond e then pushUnique acc.1 e.url else acc.1,
   if eventImageCond e then pushUnique acc.2 e.url else acc.2)

/-- The Instagram extractor's captured evidence after a sequence of network
events, starting from the empty per-attempt lists. -/
def instaCapture (events : List NetEvent) : List String × List String :=
  events.foldl instaStep ([], [])

/-! ## Reconciliation of DOM candidates with captured evidence -/

/-- A video item with an empty URL — the spec's *placeholder*. -/
def isEmptyVideo (m : MediaItem) : Bool := m.type == "video" && m.url == ""

/-- Overwrite the URL of the first `type === 'video'` item (JS mutates the
reference returned by `Array.prototype.find`). -/
def fillFirstVideo (best : String) : List MediaItem → List MediaItem
  | [] => []
  | m :: t => if m.type == "video" then { m with url := best } :: t
              else m :: fillFirstVideo best t

/-- The Twitter extractor's "best" captured video:
`find(url => url.includes('720x') || url.includes('1280x')) ||
find(url => url.includes('.mp4')) || capturedVideos[0]`. -/
def twitterBestVideo (captured : List String) : Option String :=
  match captured.find? (fun u => includes u "720x" || includes u "1280x") with
  | some u => some u
  | none =>
    match captured.find? (fun u => includes u ".mp4") with
    | some u => some u
    | none => captured.head?

/-- Twitter reconciliation (lib/twitter lines 336–347): if any video URL was
captured and the DOM media contain a video item, overwrite the first video
item's URL with the best captured one; otherwise the DOM media pass through
unchanged. -/
def twitterReconcile (media : List MediaItem) (captured : List String) :
    List MediaItem :=
  if 0 < captured.length && media.any (fun m => m.type == "video") then
    match twitterBestVideo captured with
    | some best => fillFirstVideo best media
    | none => media
  else media

/-- Last element with a default (JS `list[list.length - 1]` under a
non-emptiness guard). -/
def lastD (d : String) : List String → String
  | [] => d
  | [u] => u
  | _ :: u :: t => lastD d (u :: t)

/-- First stage of Instagram reconciliation (lib/instagram lines 292–306).
`reel` is `isReel(originalUrl)`.  If videos were captured: fill the first
video item when its URL is empty (most recent capture wins); if there is no
video item and the post is a reel, prepend (`unshift`) a video built from
the captures. -/
def instaVideoStep (reel : Bool) (media : List MediaItem)
    (capturedVideos capturedImages : List String) : List MediaItem :=
  if 0 < capturedVideos.length then
    match media.find? (fun m => m.type == "video") with
    | some vm =>
      if vm.url == "" then fillFirstVideo (lastD "" capturedVideos) media
      else media
    | none =>
      if reel then
        ⟨"video", lastD "" capturedVideos, some ((capturedImages.head?).getD "")⟩ :: media
      else media
  else media

/-- Instagram reconciliation (lib/instagram lines 292–319): the video stage
above, then — if there is still no media at all and images were captured —
push the best image (`find('1080'|'1440') || last`). -/
def instaReconcile (reel : Bool) (media : List MediaItem)
    (capturedVideos capturedImages : List String) : List MediaItem :=
  if (instaVideoStep reel media capturedVideos capturedImages).length == 0 &&
      0 < capturedImages.length then
    instaVideoStep reel media capturedVideos capturedImages ++ [⟨"image",
      ((capturedImages.find? (fun u => includes u "1080" || includes u "1440")).getD
        (lastD "" capturedImages)), none⟩]
  else instaVideoStep reel media capturedVideos capturedImages

/-- Number of `type === 'video'` items in a media list. -/
def videoCount (media : List MediaItem) : Nat :=
  (media.filter (fun m => m.type == "video")).length

/-! ## Helper lemmas: strings and the embed builder -/

theorem string_mk_ne_empty {l : List Char} (h : l ≠ []) : String.mk l ≠ "" := by
  intro he
  exact h (congrArg String.data he)

theorem toList_ne_nil {s : String} (h : s ≠ "") : s.toList ≠ [] := by
  intro he
  apply h
  cases s with
  | mk d =>
    have hd : d = [] := he
    subst hd
    rfl

theorem replaceFirstL_ne_nil {pat rep s : List Char} (hs : s ≠ []) (hr : rep ≠ []) :
    replaceFirstL pat rep s ≠ [] := by
  cases s with
  | nil => exact absurd rfl hs
  | cons c t =>
    simp only [replaceFirstL]
    cases h : stripL pat (c :: t) with
    | some rest =>
      intro hh
      exact hr (List.append_eq_nil.mp hh).1
    | none => simp

theorem getEmbedUrl_ne_empty {p url : String} (h : url ≠ "") : getEmbedUrl p url ≠ "" := by
  unfold getEmbedUrl
  split
  · exact string_mk_ne_empty (replaceFirstL_ne_nil (toList_ne_nil h) (by decide))
  · split
    · split
      · apply string_mk_ne_empty
        intro hh
        have h1 := (List.append_eq_nil.mp (List.append_eq_nil.mp hh).1).1
        exact absurd h1 (by decide)
      · exact h
    · split
      · exact h
      · exact h

/-! ## Helper lemmas: the handler -/

theorem handleExtract_embed {url p : String} {parseOk : String → Bool}
    {primary : Except String ContentRecord}
    (h0 : url ≠ "") (h1 : parseOk url = true) (h2 : detectPlatform url = some p)
    (h3 : primaryUnusable primary) :
    handleExtract (some url) parseOk primary =
      ⟨.okEmbed ⟨p, true, url, getEmbedUrl p url⟩, true, false⟩ := by
  cases primary with
  | error e => simp [handleExtract, h0, h1, h2]
  | ok r =>
    have hr : ¬ (0 < r.content.media.length ∧ hasUsableVideo r = true) := h3
    simp [handleExtract, h0, h1, h2, hr]

/-! ## Claim theorems about the handler -/

/-- C10: a `POST /api/extract` request whose body has no `url` (absent or the
empty string) is answered with status 400 and the message `'Please provide a
social media URL to view'`; the model's universally-quantified `parseOk` and
`primary` oracles show that neither URL parsing nor any extraction tier is
consulted, and `primaryInvoked`/`secondaryInvoked` are both `false`. -/
theorem missing_url_rejected (parseOk : String → Bool)
    (primary : Except String ContentRecord) (body : Option String)
    (h : body = none ∨ body = some "") :
    handleExtract body parseOk primary =
      ⟨.err 400 ⟨"URL is required", "Please provide a social media URL to view"⟩,
        false, false⟩ := by
  rcases h with h | h <;> subst h <;> simp [handleExtract]

/-- Witness for `missing_url_rejected` at a concrete request without a `url`. -/
theorem missing_url_rejected_witness :
    handleExtract none (fun _ => true) (.error "boom") =
      ⟨.err 400 ⟨"URL is required", "Please provide a social media URL to view"⟩,
        false, false⟩ :=
  missing_url_rejected _ _ _ (Or.inl rfl)

/-- C7: a non-empty URL that parses but matches no supported platform is
rejected with the unsupported-platform error and neither extraction tier is
invoked; moreover every error response the handler can produce for a
non-empty URL is a 400 whose kind is `'Invalid URL'` or
`'Unsupported platform'` — the success and embed responses are the only
other outcomes. -/
theorem unsupported_platform_short_circuit (url : String) (parseOk : String → Bool)
    (primary : Except String ContentRecord) (h0 : url ≠ "") :
    (parseOk url = true → detectPlatform url = none →
      handleExtract (some url) parseOk primary =
        ⟨.err 400 ⟨"Unsupported platform",
          "Currently only Twitter/X, Instagram, and TikTok links are supported"⟩,
          false, false⟩) ∧
    (∀ st b, (handleExtract (some url) parseOk primary).response = .err st b →
      st = 400 ∧ (b.error = "Invalid URL" ∨ b.error = "Unsupported platform")) := by
  constructor
  · intro h1 h2
    simp [handleExtract, h0, h1, h2]
  · intro st b hb
    simp only [handleExtract] at hb
    rw [if_neg h0] at hb
    by_cases hp : parseOk url = false
    · rw [if_pos hp] at hb
      simp only [ApiResponse.err.injEq] at hb
      obtain ⟨hst, hbody⟩ := hb
      exact ⟨hst.symm, Or.inl (by rw [← hbody])⟩
    · rw [if_neg hp] at hb
      cases hd : detectPlatform url with
      | none =>
        rw [hd] at hb
        simp only [ApiResponse.err.injEq] at hb
        obtain ⟨hst, hbody⟩ := hb
        exact ⟨hst.symm, Or.inr (by rw [← hbody])⟩
      | some pl =>
        rw [hd] at hb
        cases primary with
        | error e => simp at hb
        | ok r =>
          by_cases hm : 0 < r.content.media.length ∧ hasUsableVideo r = true
          · simp [hm] at hb
          · simp [hm] at hb

/-- Witness for `unsupported_platform_short_circuit` at the spec's example
URL `https://example.com/post/1`. -/
theorem unsupported_platform_short_circuit_witness :
    handleExtract (some "https://example.com/post/1") (fun _ => true) (.error "x") =
      ⟨.err 400 ⟨"Unsupported platform",
        "Currently only Twitter/X, Instagram, and TikTok links are supported"⟩,
        false, false⟩ :=
  (unsupported_platform_short_circuit "https://example.com/post/1" _ _
    (by decide)).1 rfl (by decide)

/-- C8: for a URL classified as a supported platform, whenever the yt-dlp
attempt throws or yields no usable video media, the request completes with
an `embedMode = true` record carrying the original URL and a non-empty
`embedUrl` — every platform the detector can return has an embed builder
branch in `getEmbedUrl`. -/
theorem embed_fallback_on_primary_failure (url p : String) (parseOk : String → Bool)
    (primary : Except String ContentRecord)
    (h0 : url ≠ "") (h1 : parseOk url = true) (h2 : detectPlatform url = some p)
    (h3 : primaryUnusable primary) :
    (handleExtract (some url) parseOk primary).response =
      .okEmbed ⟨p, true, url, getEmbedUrl p url⟩ ∧ getEmbedUrl p url ≠ "" := by
  refine ⟨?_, getEmbedUrl_ne_empty h0⟩
  rw [handleExtract_embed h0 h1 h2 h3]

/-- Witness for `embed_fallback_on_primary_failure`: a TikTok URL whose
yt-dlp record came back without media. -/
theorem embed_fallback_on_primary_failure_witness :
    (handleExtract (some "https://www.tiktok.com/@u/video/7") (fun _ => true)
        (.ok ⟨"tiktok", ⟨"", []⟩, "https://www.tiktok.com/@u/video/7"⟩)).response =
      .okEmbed ⟨"tiktok", true, "https://www.tiktok.com/@u/video/7",
        getEmbedUrl "tiktok" "https://www.tiktok.com/@u/video/7"⟩ ∧
    getEmbedUrl "tiktok" "https://www.tiktok.com/@u/video/7" ≠ "" :=
  embed_fallback_on_primary_failure "https://www.tiktok.com/@u/video/7" "tiktok" _ _
    (by decide) rfl (by decide) (by decide)

/-- C1 (amended): on any supported platform, when the yt-dlp attempt errors
or yields no usable video the handler proceeds directly to the embed
fallback; no secondary (live-page) extraction is ever invoked by the
orchestrator, even though the repository defines such extractors. -/
theorem orchestrator_embed_after_primary_failure (url p : String)
    (parseOk : String → Bool) (primary : Except String ContentRecord)
    (h0 : url ≠ "") (h1 : parseOk url = true) (h2 : detectPlatform url = some p)
    (h3 : primaryUnusable primary) :
    handleExtract (some url) parseOk primary =
      ⟨.okEmbed ⟨p, true, url, getEmbedUrl p url⟩, true, false⟩ :=
  handleExtract_embed h0 h1 h2 h3

/-- Witness for `orchestrator_embed_after_primary_failure` at a concrete
Instagram URL with a throwing primary. -/
theorem orchestrator_embed_after_primary_failure_witness :
    handleExtract (some "https://www.instagram.com/p/AbC/") (fun _ => true)
        (.error "timeout") =
      ⟨.okEmbed ⟨"instagram", true, "https://www.instagram.com/p/AbC/",
        "https://www.instagram.com/p/AbC/embed/"⟩, true, false⟩ := by
  have h := orchestrator_embed_after_primary_failure
    "https://www.instagram.com/p/AbC/" "instagram" (fun _ => true) (.error "timeout")
    (by decide) rfl (by decide) trivial
  rw [h]
  decide

/-! ## Helper lemmas: the stable sort and format selection -/

theorem insertByHeight_ne_nil (f : YtFormat) (l : List YtFormat) :
    insertByHeight f l ≠ [] := by
  cases l with
  | nil => simp [insertByHeight]
  | cons g t =>
    simp only [insertByHeight]
    split <;> simp

theorem sortByHeightDesc_eq_nil_iff (l : List YtFormat) :
    sortByHeightDesc l = [] ↔ l = [] := by
  cases l with
  | nil => simp [sortByHeightDesc]
  | cons f t => simp [sortByHeightDesc, insertByHeight_ne_nil]

theorem sortByHeightDesc_head_max :
    ∀ {l : List YtFormat} {x : YtFormat} {rest : List YtFormat},
      sortByHeightDesc l = x :: rest → x ∈ l ∧ ∀ y ∈ l, hOf y ≤ hOf x := by
  intro l
  induction l with
  | nil => intro x rest h; simp [sortByHeightDesc] at h
  | cons f t ih =>
    intro x rest h
    simp only [sortByHeightDesc] at h
    cases hs : sortByHeightDesc t with
    | nil =>
      rw [hs] at h
      simp only [insertByHeight] at h
      obtain ⟨rfl, -⟩ := List.cons.inj h
      have ht : t = [] := (sortByHeightDesc_eq_nil_iff t).mp hs
      subst ht
      refine ⟨List.mem_cons_self _ _, ?_⟩
      intro y hy
      rcases List.mem_cons.mp hy with rfl | hy'
      · exact le_refl _
      · exact absurd hy' (List.not_mem_nil y)
    | cons g r =>
      rw [hs] at h
      obtain ⟨hg_mem, hg_max⟩ := ih hs
      simp only [insertByHeight] at h
      by_cases hle : hOf g ≤ hOf f
      · rw [if_pos hle] at h
        obtain ⟨rfl, -⟩ := List.cons.inj h
        refine ⟨List.mem_cons_self _ _, ?_⟩
        intro y hy
        rcases List.mem_cons.mp hy with rfl | hy'
        · exact le_refl _
        · exact (hg_max y hy').trans hle
      · rw [if_neg hle] at h
        obtain ⟨rfl, -⟩ := List.cons.inj h
        push_neg at hle
        refine ⟨List.mem_cons_of_mem _ hg_mem, ?_⟩
        intro y hy
        rcases List.mem_cons.mp hy with rfl | hy'
        · exact le_of_lt hle
        · exact hg_max y hy'

theorem sort_head_unique {l l' : List YtFormat} {x x' : YtFormat}
    {r r' : List YtFormat}
    (hp : l.Perm l') (hn : (l.map hOf).Nodup)
    (h : sortByHeightDesc l = x :: r) (h' : sortByHeightDesc l' = x' :: r') :
    x = x' := by
  obtain ⟨hx_mem, hx_max⟩ := sortByHeightDesc_head_max h
  obtain ⟨hx'_mem, hx'_max⟩ := sortByHeightDesc_head_max h'
  have hx'_mem_l : x' ∈ l := hp.mem_iff.mpr hx'_mem
  have hx_mem_l' : x ∈ l' := hp.mem_iff.mp hx_mem
  have h1 : hOf x' ≤ hOf x := hx_max x' hx'_mem_l
  have h2 : hOf x ≤ hOf x' := hx'_max x hx_mem_l'
  exact List.inj_on_of_nodup_map hn hx_mem hx'_mem_l (le_antisymm h2 h1)

theorem candidatesOf_perm {formats formats' : List YtFormat}
    (hp : formats.Perm formats') :
    (candidatesOf formats).Perm (candidatesOf formats') := by
  have hv : (formats.filter isVideoFormat).Perm (formats'.filter isVideoFormat) :=
    hp.filter _
  have hpr : ((formats.filter isVideoFormat).filter isProgressive).Perm
      ((formats'.filter isVideoFormat).filter isProgressive) := hv.filter _
  unfold candidatesOf
  rw [hpr.length_eq]
  split
  · exact hpr
  · exact hv

theorem candidatesOf_sublist (formats : List YtFormat) :
    (candidatesOf formats).Sublist formats := by
  unfold candidatesOf
  split
  · exact ((List.filter_sublist _).trans (List.filter_sublist _))
  · exact List.filter_sublist _

theorem candidatesOf_ne_nil {formats : List YtFormat}
    (h : 0 < (formats.filter isVideoFormat).length) : candidatesOf formats ≠ [] := by
  unfold candidatesOf
  split
  · rename_i hl
    intro he
    rw [he] at hl
    simp at hl
  · intro he
    rw [he] at h
    simp at h

/-! ## Claim theorems about format selection -/

/-- C4 (amended): the Primary tier's `videoUrl` selection is a total
function of the formats list that is invariant under permutation whenever
the entries' heights (`height || 0`) are pairwise distinct; reordering
entries of equal height can change the choice, because the stable sort
keeps equal-height entries in input order. -/
theorem selection_perm_invariant_distinct_heights
    (formats formats' : List YtFormat) (topUrl : Option String)
    (hp : formats.Perm formats') (hn : (formats.map hOf).Nodup) :
    selectVideoUrl formats topUrl = selectVideoUrl formats' topUrl := by
  unfold selectVideoUrl
  have hlen := hp.length_eq
  have hv : (formats.filter isVideoFormat).Perm (formats'.filter isVideoFormat) :=
    hp.filter _
  by_cases h0 : 0 < formats.length
  · have h0' : 0 < formats'.length := by rw [← hlen]; exact h0
    rw [if_pos h0, if_pos h0']
    by_cases h1 : 0 < (formats.filter isVideoFormat).length
    · have h1' : 0 < (formats'.filter isVideoFormat).length := by
        rw [← hv.length_eq]; exact h1
      rw [if_pos h1, if_pos h1']
      have hc : (candidatesOf formats).Perm (candidatesOf formats') :=
        candidatesOf_perm hp
      have hcnil : candidatesOf formats ≠ [] := candidatesOf_ne_nil h1
      have hcnil' : candidatesOf formats' ≠ [] := fun he => hcnil ((he ▸ hc).eq_nil)
      cases hs : sortByHeightDesc (candidatesOf formats) with
      | nil => exact absurd ((sortByHeightDesc_eq_nil_iff _).mp hs) hcnil
      | cons x r =>
        cases hs' : sortByHeightDesc (candidatesOf formats') with
        | nil => exact absurd ((sortByHeightDesc_eq_nil_iff _).mp hs') hcnil'
        | cons x' r' =>
          have hnc : ((candidatesOf formats).map hOf).Nodup :=
            List.Nodup.sublist ((candidatesOf_sublist formats).map hOf) hn
          rw [sort_head_unique hc hnc hs hs']
    · have h1' : ¬ 0 < (formats'.filter isVideoFormat).length := by
        rw [← hv.length_eq]; exact h1
      rw [if_neg h1, if_neg h1']
  · have h0' : ¬ 0 < formats'.length := by rw [← hlen]; exact h0
    rw [if_neg h0, if_neg h0']

/-- Witness for `selection_perm_invariant_distinct_heights` on two concrete
formats of distinct heights, in both orders. -/
theorem selection_perm_invariant_distinct_heights_witness :
    selectVideoUrl [wideFormatA, wideFormatB] none =
      selectVideoUrl [wideFormatB, wideFormatA] none :=
  selection_perm_invariant_distinct_heights [wideFormatA, wideFormatB]
    [wideFormatB, wideFormatA] none (List.Perm.swap wideFormatB wideFormatA [])
    (by decide)

/-- Counterexample to C4 as stated: two progressive formats of equal height
(720) but different URLs — swapping them is a permutation (of equal-quality
entries), yet the selected `videoUrl` changes from `"ua"` to `"ub"`. -/
theorem selection_equal_height_order_dependent_cex :
    [eqHeightA, eqHeightB].Perm [eqHeightB, eqHeightA] ∧
    selectVideoUrl [eqHeightA, eqHeightB] none = "ua" ∧
    selectVideoUrl [eqHeightB, eqHeightA] none = "ub" ∧
    selectVideoUrl [eqHeightA, eqHeightB] none ≠
      selectVideoUrl [eqHeightB, eqHeightA] none :=
  ⟨List.Perm.swap eqHeightB eqHeightA [], by decide, by decide, by decide⟩

/-- C5 (amended): on the spec's example list completed with the `width`
fields that yt-dlp emits (the selection filter requires truthy `width`),
the progressive 720p entry `"a"` is chosen over the 1080p DASH entry; and
for any two progressive video formats the one with the larger height is
selected, in either input order. -/
theorem selection_progressive_larger_height (f g : YtFormat) (top : Option String)
    (hf : isVideoFormat f = true) (hg : isVideoFormat g = true)
    (hpf : isProgressive f = true) (hpg : isProgressive g = true)
    (hh : hOf g < hOf f) :
    selectVideoUrl [f, g] top = f.url.getD "" ∧
    selectVideoUrl [g, f] top = f.url.getD "" ∧
    selectVideoUrl [wideFormatA, wideFormatB] none = "a" := by
  have hgf : hOf g ≤ hOf f := le_of_lt hh
  have hfg : ¬ hOf f ≤ hOf g := not_le.mpr hh
  refine ⟨?_, ?_, by decide⟩
  · simp [selectVideoUrl, candidatesOf, List.filter, hf, hg, hpf, hpg,
      sortByHeightDesc, insertByHeight, hgf]
  · simp [selectVideoUrl, candidatesOf, List.filter, hf, hg, hpf, hpg,
      sortByHeightDesc, insertByHeight, hfg]

/-- Witness for `selection_progressive_larger_height` at two concrete
progressive formats (1080p wins over 480p in both orders). -/
theorem selection_progressive_larger_height_witness :
    selectVideoUrl [tallFormat, shortFormat] none = tallFormat.url.getD "" ∧
    selectVideoUrl [shortFormat, tallFormat] none = tallFormat.url.getD "" := by
  have h := selection_progressive_larger_height tallFormat shortFormat none
    (by decide) (by decide) (by decide) (by decide) (by decide)
  exact ⟨h.1, h.2.1⟩

/-- Counterexample to C5 as stated: on the formats list exactly as the spec
writes it — entries carrying only `height`, `url`, `video_ext`,
`format_id` and no `width` — the selection filter
(`f.width && f.height && f.url`) rejects both entries, so the chosen
`videoUrl` is the top-level fallback (here `""`), not `"a"`. -/
theorem selection_spec_example_missing_width_cex :
    selectVideoUrl [specFormatA, specFormatB] none = "" ∧
    selectVideoUrl [specFormatA, specFormatB] none ≠ "a" := by
  exact ⟨by decide, by decide⟩

/-! ## Helper lemmas: reconciliation -/

theorem lastD_mem {l : List String} (d : String) (h : l ≠ []) : lastD d l ∈ l := by
  induction l with
  | nil => exact absurd rfl h
  | cons u t ih =>
    cases t with
    | nil => simp [lastD]
    | cons v r =>
      have hm := ih (by simp)
      simp only [lastD]
      exact List.mem_cons_of_mem _ hm

theorem twitterBestVideo_mem {captured : List String} (h : captured ≠ []) :
    ∃ b, twitterBestVideo captured = some b ∧ b ∈ captured := by
  unfold twitterBestVideo
  cases h1 : captured.find? (fun u => includes u "720x" || includes u "1280x") with
  | some u => exact ⟨u, rfl, List.mem_of_find?_eq_some h1⟩
  | none =>
    cases h2 : captured.find? (fun u => includes u ".mp4") with
    | some u => exact ⟨u, rfl, List.mem_of_find?_eq_some h2⟩
    | none =>
      cases captured with
      | nil => exact absurd rfl h
      | cons c t => exact ⟨c, rfl, List.mem_cons_self _ _⟩

theorem videoCount_cons_video {m : MediaItem} (t : List MediaItem)
    (h : (m.type == "video") = true) : videoCount (m :: t) = videoCount t + 1 := by
  simp [videoCount, List.filter_cons, h]

theorem videoCount_cons_nonvideo {m : MediaItem} (t : List MediaItem)
    (h : (m.type == "video") = false) : videoCount (m :: t) = videoCount t := by
  simp [videoCount, List.filter_cons, h]

theorem no_video_of_videoCount_zero {t : List MediaItem} (h : videoCount t = 0) :
    ∀ y ∈ t, (y.type == "video") = false := by
  intro y hy
  cases hb : (y.type == "video") with
  | false => rfl
  | true =>
    have hmem : y ∈ t.filter (fun m => m.type == "video") :=
      List.mem_filter.mpr ⟨hy, hb⟩
    have hlen : 0 < (t.filter (fun m => m.type == "video")).length :=
      List.length_pos.mpr (List.ne_nil_of_mem hmem)
    unfold videoCount at h
    omega

theorem fillFirstVideo_no_empty {b : String} {media : List MediaItem}
    (hb : b ≠ "") (h1 : videoCount media ≤ 1) :
    ∀ m ∈ fillFirstVideo b media, m.type = "video" → m.url ≠ "" := by
  induction media with
  | nil => intro m hm; simp [fillFirstVideo] at hm
  | cons x t ih =>
    intro m hm hv
    simp only [fillFirstVideo] at hm
    cases hx : (x.type == "video") with
    | true =>
      rw [if_pos hx] at hm
      rcases List.mem_cons.mp hm with rfl | hm'
      · exact hb
      · have hc := videoCount_cons_video t hx
        have ht : videoCount t = 0 := by omega
        have hz := no_video_of_videoCount_zero ht m hm'
        rw [hv] at hz
        simp at hz
    | false =>
      rw [if_neg (by simp [hx])] at hm
      rcases List.mem_cons.mp hm with rfl | hm'
      · rw [hv] at hx
        simp at hx
      · have hc := videoCount_cons_nonvideo t hx
        exact ih (by omega) m hm' hv

theorem fillFirstVideo_length (b : String) (media : List MediaItem) :
    (fillFirstVideo b media).length = media.length := by
  induction media with
  | nil => rfl
  | cons x t ih =>
    simp only [fillFirstVideo]
    split <;> simp [ih]

theorem find_video_unique {media : List MediaItem} {vm : MediaItem}
    (h1 : videoCount media ≤ 1)
    (hf : media.find? (fun m => m.type == "video") = some vm) :
    ∀ m ∈ media, m.type = "video" → m = vm := by
  induction media with
  | nil => simp at hf
  | cons x t ih =>
    intro m hm hv
    rw [List.find?_cons] at hf
    cases hx : (x.type == "video") with
    | true =>
      simp only [hx] at hf
      have hxm : x = vm := by
        simpa using hf
      rcases List.mem_cons.mp hm with rfl | hm'
      · exact hxm
      · have hc := videoCount_cons_video t hx
        have ht : videoCount t = 0 := by omega
        have hz := no_video_of_videoCount_zero ht m hm'
        rw [hv] at hz
        simp at hz
    | false =>
      simp only [hx] at hf
      rcases List.mem_cons.mp hm with rfl | hm'
      · rw [hv] at hx
        simp at hx
      · have hc := videoCount_cons_nonvideo t hx
        exact ih (by omega) hf m hm' hv

theorem instaVideoStep_no_empty {reel : Bool} {media : List MediaItem}
    {vids imgs : List String}
    (hv : vids ≠ []) (hne : ∀ u ∈ vids, u ≠ "") (h1 : videoCount media ≤ 1) :
    ∀ m ∈ instaVideoStep reel media vids imgs, m.type = "video" → m.url ≠ "" := by
  intro m hm hmv
  have hlen : 0 < vids.length := List.length_pos.mpr hv
  have hlast : lastD "" vids ≠ "" := hne _ (lastD_mem "" hv)
  unfold instaVideoStep at hm
  rw [if_pos hlen] at hm
  split at hm
  · rename_i vm hf
    split at hm
    · exact fillFirstVideo_no_empty hlast h1 m hm hmv
    · rename_i hu
      have hme : m = vm := find_video_unique h1 hf m hm hmv
      subst hme
      intro he
      exact hu (by rw [he]; rfl)
  · rename_i hf
    split at hm
    · rcases List.mem_cons.mp hm with rfl | hm'
      · exact hlast
      · have hz := List.find?_eq_none.mp hf m hm'
        rw [hmv] at hz
        simp at hz
    · have hz := List.find?_eq_none.mp hf m hm
      rw [hmv] at hz
      simp at hz

/-! ## Claim theorems about reconciliation -/

/-- C2 (amended): whenever at least one (non-empty) video URL was captured
on the network and the DOM candidate carries at most one video item — which
is what the extractors' DOM passes produce, a single placeholder at most —
the reconciled media of both the Twitter and the Instagram secondary
extractor contain no `type=video` item with an empty `url`.  (With an empty
evidence list the placeholder is surfaced unchanged; it is never dropped.) -/
theorem reconciler_no_empty_video_when_evidence
    (media : List MediaItem) (vids imgs : List String) (reel : Bool)
    (hv : vids ≠ []) (hne : ∀ u ∈ vids, u ≠ "") (h1 : videoCount media ≤ 1) :
    (∀ m ∈ twitterReconcile media vids, m.type = "video" → m.url ≠ "") ∧
    (∀ m ∈ instaReconcile reel media vids imgs, m.type = "video" → m.url ≠ "") := by
  have hlen : 0 < vids.length := List.length_pos.mpr hv
  constructor
  · intro m hm hmv
    unfold twitterReconcile at hm
    cases hany : media.any (fun x => x.type == "video") with
    | false =>
      rw [hany] at hm
      simp only [Bool.and_false, Bool.false_eq_true, if_false] at hm
      have hz := (List.any_eq_false.mp hany) m hm
      rw [hmv] at hz
      simp at hz
    | true =>
      rw [hany] at hm
      rw [if_pos (by simp [hlen])] at hm
      obtain ⟨b, hbeq, hbmem⟩ := twitterBestVideo_mem hv
      rw [hbeq] at hm
      exact fillFirstVideo_no_empty (hne b hbmem) h1 m hm hmv
  · intro m hm hmv
    unfold instaReconcile at hm
    split at hm
    · rcases List.mem_append.mp hm with hm' | hm'
      · exact instaVideoStep_no_empty hv hne h1 m hm' hmv
      · rw [List.mem_singleton.mp hm'] at hmv
        simp at hmv
    · exact instaVideoStep_no_empty hv hne h1 m hm hmv

/-- Witness for `reconciler_no_empty_video_when_evidence`: one placeholder,
one captured video URL. -/
theorem reconciler_no_empty_video_when_evidence_witness :
    (∀ m ∈ twitterReconcile [⟨"video", "", some "p"⟩] ["u.mp4"],
      m.type = "video" → m.url ≠ "") ∧
    (∀ m ∈ instaReconcile true [⟨"video", "", some "p"⟩] ["u.mp4"] [],
      m.type = "video" → m.url ≠ "") :=
  reconciler_no_empty_video_when_evidence [⟨"video", "", some "p"⟩] ["u.mp4"] [] true
    (by decide) (by decide) (by decide)

/-- Counterexample to C2 as stated: when no video URL was captured, the
Twitter extractor returns the DOM pass's video placeholder with its empty
`url` to the caller — the placeholder is neither filled nor dropped. -/
theorem reconciler_surfaces_placeholder_cex :
    twitterReconcile [⟨"video", "", some "t"⟩] [] = [⟨"video", "", some "t"⟩] ∧
    (twitterReconcile [⟨"video", "", some "t"⟩] []).any isEmptyVideo = true ∧
    instaReconcile false [⟨"video", "", some "t"⟩] [] [] = [⟨"video", "", some "t"⟩] := by
  exact ⟨by decide, by decide, by decide⟩

/-- C6 (amended): on a DOM video placeholder with thumbnail `"t"` and
captured evidence `["v1.mp4", "v2.mp4"]`, the Instagram reconciler fills
with the most recently observed entry (`"v2.mp4"`), but the Twitter
reconciler fills with the first entry containing `".mp4"` (its resolution
tokens `720x`/`1280x` being absent), i.e. `"v1.mp4"`. -/
theorem reconcile_evidence_choice :
    instaReconcile false [⟨"video", "", some "t"⟩] ["v1.mp4", "v2.mp4"] [] =
      [⟨"video", "v2.mp4", some "t"⟩] ∧
    twitterReconcile [⟨"video", "", some "t"⟩] ["v1.mp4", "v2.mp4"] =
      [⟨"video", "v1.mp4", some "t"⟩] := by
  exact ⟨by decide, by decide⟩

/-- Counterexample to C6 as stated: the Twitter reconciliation of the exact
example input produces `"v1.mp4"`, not the most recently observed
`"v2.mp4"`. -/
theorem twitter_reconcile_not_most_recent_cex :
    twitterReconcile [⟨"video", "", some "t"⟩] ["v1.mp4", "v2.mp4"] ≠
      [⟨"video", "v2.mp4", some "t"⟩] := by
  decide

/-! ## Helper lemmas: network capture -/

theorem pushUnique_nodup {l : List String} {u : String} (h : l.Nodup) :
    (pushUnique l u).Nodup := by
  unfold pushUnique
  split
  · exact h
  · rename_i hu
    rw [List.nodup_append]
    exact ⟨h, List.nodup_singleton u,
      fun a ha hau => hu (by rwa [List.mem_singleton.mp hau] at ha)⟩

theorem instaStep_fst_nodup (acc : List String × List String) (e : NetEvent)
    (h1 : acc.1.Nodup) : (instaStep acc e).1.Nodup := by
  show (if eventVideoCond e then pushUnique acc.1 e.url else acc.1).Nodup
  split
  · exact pushUnique_nodup h1
  · exact h1

theorem instaStep_snd_nodup (acc : List String × List String) (e : NetEvent)
    (h2 : acc.2.Nodup) : (instaStep acc e).2.Nodup := by
  show (if eventImageCond e then pushUnique acc.2 e.url else acc.2).Nodup
  split
  · exact pushUnique_nodup h2
  · exact h2

theorem instaFold_nodup (evts : List NetEvent) (acc : List String × List String)
    (h1 : acc.1.Nodup) (h2 : acc.2.Nodup) :
    (evts.foldl instaStep acc).1.Nodup ∧ (evts.foldl instaStep acc).2.Nodup := by
  induction evts generalizing acc with
  | nil => exact ⟨h1, h2⟩
  | cons e t ih =>
    exact ih (instaStep acc e) (instaStep_fst_nodup acc e h1)
      (instaStep_snd_nodup acc e h2)

theorem instaStep_fst_cases (acc : List String × List String) (e : NetEvent) :
    (instaStep acc e).1 = acc.1 ∨ (instaStep acc e).1 = acc.1 ++ [e.url] := by
  have hs : (instaStep acc e).1 =
      if eventVideoCond e then pushUnique acc.1 e.url else acc.1 := rfl
  rw [hs]
  unfold pushUnique
  split
  · split
    · exact Or.inl rfl
    · exact Or.inr rfl
  · exact Or.inl rfl

theorem instaStep_snd_cases (acc : List String × List String) (e : NetEvent) :
    (instaStep acc e).2 = acc.2 ∨ (instaStep acc e).2 = acc.2 ++ [e.url] := by
  have hs : (instaStep acc e).2 =
      if eventImageCond e then pushUnique acc.2 e.url else acc.2 := rfl
  rw [hs]
  unfold pushUnique
  split
  · split
    · exact Or.inl rfl
    · exact Or.inr rfl
  · exact Or.inl rfl

theorem instaFold_sublist (evts : List NetEvent) (acc : List String × List String) :
    ∃ s₁ s₂, (evts.foldl instaStep acc).1 = acc.1 ++ s₁ ∧
      s₁.Sublist (evts.map NetEvent.url) ∧
      (evts.foldl instaStep acc).2 = acc.2 ++ s₂ ∧
      s₂.Sublist (evts.map NetEvent.url) := by
  induction evts generalizing acc with
  | nil => exact ⟨[], [], by simp, List.nil_sublist _, by simp, List.nil_sublist _⟩
  | cons e t ih =>
    obtain ⟨s₁, s₂, he1, hs1, he2, hs2⟩ := ih (instaStep acc e)
    simp only [List.foldl_cons, List.map_cons]
    rcases instaStep_fst_cases acc e with hc1 | hc1 <;>
      rcases instaStep_snd_cases acc e with hc2 | hc2
    · exact ⟨s₁, s₂, by rw [he1, hc1], List.Sublist.cons _ hs1,
        by rw [he2, hc2], List.Sublist.cons _ hs2⟩
    · exact ⟨s₁, e.url :: s₂, by rw [he1, hc1], List.Sublist.cons _ hs1,
        by rw [he2, hc2, List.append_assoc, List.singleton_append],
        List.Sublist.cons₂ _ hs2⟩
    · exact ⟨e.url :: s₁, s₂,
        by rw [he1, hc1, List.append_assoc, List.singleton_append],
        List.Sublist.cons₂ _ hs1,
        by rw [he2, hc2], List.Sublist.cons _ hs2⟩
    · exact ⟨e.url :: s₁, e.url :: s₂,
        by rw [he1, hc1, List.append_assoc, List.singleton_append],
        List.Sublist.cons₂ _ hs1,
        by rw [he2, hc2, List.append_assoc, List.singleton_append],
        List.Sublist.cons₂ _ hs2⟩

theorem twitterCapture_sublist (reqs : List String) :
    (twitterCapture reqs).Sublist reqs := by
  induction reqs with
  | nil => exact List.Sublist.refl _
  | cons u t ih =>
    simp only [twitterCapture]
    split
    · exact List.Sublist.cons₂ _ ih
    · exact List.Sublist.cons _ ih

/-! ## Claim theorems about network capture -/

/-- C9 (amended): within one extraction attempt the Instagram listeners
deduplicate both captured-evidence lists by exact URL string and keep them
in observation order (each list is a duplicate-free sublist of the event
URLs in order); the Twitter request listener preserves observation order
but performs no deduplication. -/
theorem capture_dedup_and_order (evts : List NetEvent) (reqs : List String) :
    (instaCapture evts).1.Nodup ∧ (instaCapture evts).2.Nodup ∧
    (instaCapture evts).1.Sublist (evts.map NetEvent.url) ∧
    (instaCapture evts).2.Sublist (evts.map NetEvent.url) ∧
    (twitterCapture reqs).Sublist reqs := by
  have hn := instaFold_nodup evts ([], []) List.nodup_nil List.nodup_nil
  obtain ⟨s₁, s₂, he1, hs1, he2, hs2⟩ := instaFold_sublist evts ([], [])
  refine ⟨hn.1, hn.2, ?_, ?_, twitterCapture_sublist reqs⟩
  · unfold instaCapture
    rw [he1]
    simpa using hs1
  · unfold instaCapture
    rw [he2]
    simpa using hs2

/-- Counterexample to C9 as stated: the Twitter request listener pushes
without any duplicate check, so the same URL observed twice appears twice
in the captured list. -/
theorem twitter_capture_duplicate_cex :
    twitterCapture ["a.mp4", "a.mp4"] = ["a.mp4", "a.mp4"] ∧
    ¬ (twitterCapture ["a.mp4", "a.mp4"]).Nodup := by
  exact ⟨by decide, by decide⟩

/-! ## Helper lemmas: unanchored matching is stable under context -/

theorem stripL_append {pat s v r : List Char} (h : stripL pat s = some r) :
    stripL pat (s ++ v) = some (r ++ v) := by
  induction pat generalizing s with
  | nil =>
    simp only [stripL] at h ⊢
    rw [Option.some.inj h]
  | cons c p ih =>
    cases s with
    | nil => simp [stripL] at h
    | cons d t =>
      simp only [List.cons_append, stripL] at h ⊢
      by_cases hc : c = d
      · rw [if_pos hc] at h ⊢
        exact ih h
      · rw [if_neg hc] at h
        exact absurd h (by simp)

theorem dropRun_append {p : Char → Bool} {s v : List Char} {c : Char} {r : List Char}
    (h : dropRun p s = c :: r) : dropRun p (s ++ v) = c :: (r ++ v) := by
  induction s with
  | nil => simp [dropRun] at h
  | cons d t ih =>
    by_cases hd : p d = true
    · rw [dropRun, if_pos hd] at h
      rw [List.cons_append, dropRun, if_pos hd]
      exact ih h
    · rw [dropRun, if_neg hd] at h
      obtain ⟨rfl, rfl⟩ := List.cons.inj h
      rw [List.cons_append, dropRun, if_neg hd]

theorem digitStart_append {s v : List Char} (h : digitStart s = true) :
    digitStart (s ++ v) = true := by
  cases s with
  | nil => simp [digitStart] at h
  | cons c t => simpa [digitStart] using h

theorem afterStatus_append {r v : List Char} (h : afterStatus r = true) :
    afterStatus (r ++ v) = true := by
  unfold afterStatus at h ⊢
  rcases Bool.or_eq_true_iff.mp h with h1 | h1
  · apply Bool.or_eq_true_iff.mpr
    left
    cases hs : stripL "es/".toList r with
    | none =>
      rw [hs] at h1
      simp at h1
    | some r3 =>
      rw [hs] at h1
      rw [stripL_append hs]
      exact digitStart_append h1
  · apply Bool.or_eq_true_iff.mpr
    right
    cases hs : stripL "/".toList r with
    | none =>
      rw [hs] at h1
      simp at h1
    | some r3 =>
      rw [hs] at h1
      rw [stripL_append hs]
      exact digitStart_append h1

theorem twitterCore_append {r v : List Char} (h : twitterCore r = true) :
    twitterCore (r ++ v) = true := by
  cases r with
  | nil => simp [twitterCore] at h
  | cons c t =>
    unfold twitterCore at h
    obtain ⟨hw, hrest⟩ := Bool.and_eq_true_iff.mp h
    rw [List.cons_append]
    unfold twitterCore
    apply Bool.and_eq_true_iff.mpr
    refine ⟨hw, ?_⟩
    cases hs : stripL "/status".toList (dropRun wordChar (c :: t)) with
    | none =>
      rw [hs] at hrest
      simp at hrest
    | some r2 =>
      rw [hs] at hrest
      cases hd : dropRun wordChar (c :: t) with
      | nil =>
        rw [hd] at hs
        simp [stripL] at hs
      | cons d rr =>
        rw [hd] at hs
        have hd' : dropRun wordChar ((c :: t) ++ v) = d :: (rr ++ v) :=
          dropRun_append hd
        rw [List.cons_append] at hd'
        rw [hd']
        have hsa := @stripL_append "/status".toList (d :: rr) v r2 hs
        rw [List.cons_append] at hsa
        rw [hsa]
        exact afterStatus_append hrest

theorem wordChar_head_ne_hash {c : Char} (h : wordChar c = true) : ¬ ('#' = c) := by
  intro he
  rw [← he] at h
  exact absurd h (by decide)

theorem twitterTail_append {r v : List Char} (h : twitterTail r = true) :
    twitterTail (r ++ v) = true := by
  unfold twitterTail at h ⊢
  cases hs : stripL "#!/".toList r with
  | some r2 =>
    rw [hs] at h
    rw [stripL_append hs]
    exact twitterCore_append h
  | none =>
    rw [hs] at h
    cases r with
    | nil => simp [twitterCore] at h
    | cons c t =>
      have hw : wordChar c = true := (Bool.and_eq_true_iff.mp (by
        unfold twitterCore at h
        exact h)).1
      have hnone : stripL "#!/".toList ((c :: t) ++ v) = none := by
        have hlit : "#!/".toList = '#' :: '!' :: '/' :: [] := by decide
        rw [hlit, List.cons_append, stripL, if_neg (wordChar_head_ne_hash hw)]
      rw [hnone]
      exact twitterCore_append h

theorem matchTwitterAt_append {s v : List Char} (h : matchTwitterAt s = true) :
    matchTwitterAt (s ++ v) = true := by
  unfold matchTwitterAt at h ⊢
  rcases Bool.or_eq_true_iff.mp h with h1 | h1
  · apply Bool.or_eq_true_iff.mpr
    left
    cases hs : stripL "twitter.com/".toList s with
    | none =>
      rw [hs] at h1
      simp at h1
    | some r =>
      rw [hs] at h1
      rw [stripL_append hs]
      exact twitterTail_append h1
  · apply Bool.or_eq_true_iff.mpr
    right
    cases hs : stripL "x.com/".toList s with
    | none =>
      rw [hs] at h1
      simp at h1
    | some r =>
      rw [hs] at h1
      rw [stripL_append hs]
      exact twitterTail_append h1

theorem matchTwitterMobileAt_append {s v : List Char}
    (h : matchTwitterMobileAt s = true) : matchTwitterMobileAt (s ++ v) = true := by
  unfold matchTwitterMobileAt at h ⊢
  rcases Bool.or_eq_true_iff.mp h with h1 | h1
  · apply Bool.or_eq_true_iff.mpr
    left
    cases hs : stripL "mobile.twitter.com/".toList s with
    | none =>
      rw [hs] at h1
      simp at h1
    | some r =>
      rw [hs] at h1
      rw [stripL_append hs]
      exact twitterCore_append h1
  · apply Bool.or_eq_true_iff.mpr
    right
    cases hs : stripL "mobile.x.com/".toList s with
    | none =>
      rw [hs] at h1
      simp at h1
    | some r =>
      rw [hs] at h1
      rw [stripL_append hs]
      exact twitterCore_append h1

theorem scanPos_of_here {q : List Char → Bool} {s : List Char} (h : q s = true) :
    scanPos q s = true := by
  cases s with
  | nil => simpa [scanPos] using h
  | cons c t => simp [scanPos, h]

theorem scanPos_append_right {q : List Char → Bool} {v : List Char}
    (hq : ∀ r, q r = true → q (r ++ v) = true) :
    ∀ {s : List Char}, scanPos q s = true → scanPos q (s ++ v) = true := by
  intro s
  induction s with
  | nil =>
    intro h
    have h0 : q [] = true := by simpa [scanPos] using h
    have h1 : q v = true := by simpa using hq [] h0
    rw [List.nil_append]
    exact scanPos_of_here h1
  | cons c t ih =>
    intro h
    rw [List.cons_append]
    simp only [scanPos] at h ⊢
    rcases Bool.or_eq_true_iff.mp h with h1 | h1
    · apply Bool.or_eq_true_iff.mpr
      left
      have h2 := hq (c :: t) h1
      rwa [List.cons_append] at h2
    · exact Bool.or_eq_true_iff.mpr (Or.inr (ih h1))

theorem scanPos_append_left {q : List Char → Bool} (u : List Char) {w : List Char}
    (h : scanPos q w = true) : scanPos q (u ++ w) = true := by
  induction u with
  | nil => simpa
  | cons c t ih =>
    rw [List.cons_append]
    simp only [scanPos]
    exact Bool.or_eq_true_iff.mpr (Or.inr ih)

theorem isTwitterUrlL_embed {u s v : List Char} (h : isTwitterUrlL s = true) :
    isTwitterUrlL (u ++ s ++ v) = true := by
  unfold isTwitterUrlL at h ⊢
  simp only [List.map_append, List.append_assoc]
  rcases Bool.or_eq_true_iff.mp h with h1 | h1
  · apply Bool.or_eq_true_iff.mpr
    left
    exact scanPos_append_left _
      (scanPos_append_right (fun r hr => matchTwitterAt_append hr) h1)
  · apply Bool.or_eq_true_iff.mpr
    right
    exact scanPos_append_left _
      (scanPos_append_right (fun r hr => matchTwitterMobileAt_append hr) h1)

/-! ## Claim theorems about platform detection -/

/-- C3 (amended): detection matches domain-plus-path shape but the regexes
are searched unanchored anywhere in the URL string, so a supported
platform's post link occurring as an embedded substring of any other URL
*is* classified as that platform (here Twitter, which is tested first);
anything matching no pattern — such as `https://example.com/post/1` —
still yields `null`. -/
theorem detect_unanchored_substring_match (u v s : List Char)
    (h : isTwitterUrlL s = true) :
    detectPlatformL (u ++ s ++ v) = some "twitter" ∧
    detectPlatform "https://example.com/post/1" = none := by
  refine ⟨?_, by decide⟩
  unfold detectPlatformL
  rw [if_pos (isTwitterUrlL_embed h)]

/-- Witness for `detect_unanchored_substring_match`: a tweet URL embedded in
a query parameter of an unrelated URL. -/
theorem detect_unanchored_substring_match_witness :
    detectPlatformL ("https://evil.example/?share=".toList ++
        "https://x.com/user/status/123".toList ++ []) = some "twitter" ∧
    detectPlatform "https://example.com/post/1" = none :=
  detect_unanchored_substring_match "https://evil.example/?share=".toList []
    "https://x.com/user/status/123".toList (by decide)

/-- Counterexample to C3 as stated: a tweet link embedded as a query
parameter of an unrelated URL is classified as Twitter, although the claim
requires it not to be. -/
theorem detect_embedded_link_cex :
    detectPlatform "https://evil.example/?share=https://x.com/user/status/123" =
      some "twitter" := by
  decide

/-- Counterexample to C1 as stated: for the supported Twitter platform (for
which the repository defines a secondary live-page extractor), a failed
yt-dlp attempt is followed immediately by the embed fallback with
`secondaryInvoked = false` — the orchestrator never attempts the secondary
tier. -/
theorem primary_failure_skips_secondary_cex :
    handleExtract (some "https://x.com/user/status/123") (fun _ => true) (.error "boom") =
      ⟨.okEmbed ⟨"twitter", true, "https://x.com/user/status/123",
        "https://twitter.com/user/status/123"⟩, true, false⟩ ∧
    (handleExtract (some "https://x.com/user/status/123") (fun _ => true)
        (.error "boom")).secondaryInvoked = false := by
  exact ⟨by decide, by decide⟩

end SMViewer
